import Mathlib

/-!
Verification of the bulk-resume ranking normalizer of
`Internship-Studio-JobFit-Analyzer` (`src/app.py`).

The Python functions `extract_text_from_pdf` (app.py lines 99-106) and
`process_bulk_resumes` (app.py lines 125-221) are shallowly embedded below.
Python's `json.loads` / `json.dumps` (stdlib, used by the code) are modelled
by an executable recursive-descent JSON parser and serializer over `List Char`
(Python strings index by code point, as `List Char` does).  The model covers
JSON objects, arrays, strings with escapes, integers, booleans and null;
duplicate object keys are kept as a list (Python dicts deduplicate; no claim
depends on duplicate keys), and non-integer numbers are not modelled (no claim
involves them).
-/

/-- JSON values, the model of Python values produced by `json.loads`. -/
inductive JSON where
  | null : JSON
  | bool (b : Bool) : JSON
  | num (i : Int) : JSON
  | str (s : String) : JSON
  | arr (elems : List JSON) : JSON
  | obj (fields : List (String × JSON)) : JSON

/-- The opening brace character. -/
def lbrace : Char := Char.ofNat 123

/-- The closing brace character. -/
def rbrace : Char := Char.ofNat 125

/-- JSON insignificant whitespace. -/
def isWs (c : Char) : Bool := c == ' ' || c == '\t' || c == '\n' || c == '\r'

/-- Drop leading JSON whitespace. -/
def skipWs : List Char → List Char
  | [] => []
  | c :: cs => if isWs c then skipWs cs else c :: cs

/-- Value of a hexadecimal digit character. -/
def hexVal (c : Char) : Option Nat :=
  if c.isDigit then some (c.toNat - 48)
  else if 'a' ≤ c ∧ c ≤ 'f' then some (c.toNat - 87)
  else if 'A' ≤ c ∧ c ≤ 'F' then some (c.toNat - 55)
  else none

/-- Single-character JSON escapes (the character after the backslash). -/
def escChar (c : Char) : Option Char :=
  if c = '"' then some '"'
  else if c = '\\' then some '\\'
  else if c = '/' then some '/'
  else if c = 'n' then some '\n'
  else if c = 't' then some '\t'
  else if c = 'r' then some '\r'
  else if c = 'b' then some (Char.ofNat 8)
  else if c = 'f' then some (Char.ofNat 12)
  else none

/-- Parse the body of a JSON string after the opening quote, up to and
including the closing quote.  Returns the decoded characters and the rest. -/
def parseStringBody : List Char → Option (List Char × List Char)
  | [] => none
  | c :: cs =>
    if c = '"' then some ([], cs)
    else if c = '\\' then
      match cs with
      | [] => none
      | e :: cs2 =>
        if e = 'u' then
          match cs2 with
          | h1 :: h2 :: h3 :: h4 :: cs3 =>
            match hexVal h1, hexVal h2, hexVal h3, hexVal h4 with
            | some a, some b, some c2, some d =>
              (parseStringBody cs3).map
                (fun p => (Char.ofNat (((a * 16 + b) * 16 + c2) * 16 + d) :: p.1, p.2))
            | _, _, _, _ => none
          | _ => none
        else
          match escChar e with
          | some d => (parseStringBody cs2).map (fun p => (d :: p.1, p.2))
          | none => none
    else (parseStringBody cs).map (fun p => (c :: p.1, p.2))

/-- Take the maximal prefix of decimal digits. -/
def takeDigits : List Char → List Char × List Char
  | [] => ([], [])
  | c :: cs =>
    if c.isDigit then
      let p := takeDigits cs
      (c :: p.1, p.2)
    else ([], c :: cs)

/-- Numeric value of a list of decimal digit characters. -/
def digitsToNat (ds : List Char) : Nat :=
  ds.foldl (fun a c => a * 10 + (c.toNat - 48)) 0

mutual

/-- Fueled recursive-descent parser for one JSON value (leading whitespace
allowed), the model of Python's `json.loads` grammar. -/
def parseValue : Nat → List Char → Option (JSON × List Char)
  | 0, _ => none
  | fuel + 1, cs =>
    match skipWs cs with
    | [] => none
    | c :: r =>
      if c = lbrace then
        match skipWs r with
        | [] => none
        | c2 :: r2 =>
          if c2 = rbrace then some (JSON.obj [], r2)
          else if c2 = '"' then
            match parseStringBody r2 with
            | some (k, r3) =>
              (match skipWs r3 with
               | ':' :: r4 =>
                 (match parseValue fuel r4 with
                  | some (v, r5) =>
                    (match parseMembersTail fuel r5 with
                     | some (kvs, r6) => some (JSON.obj ((⟨k⟩, v) :: kvs), r6)
                     | none => none)
                  | none => none)
               | _ => none)
            | none => none
          else none
      else if c = '[' then
        match skipWs r with
        | [] => none
        | c2 :: r2 =>
          if c2 = ']' then some (JSON.arr [], r2)
          else
            match parseValue fuel (c2 :: r2) with
            | some (v, r3) =>
              (match parseElemsTail fuel r3 with
               | some (vs, r4) => some (JSON.arr (v :: vs), r4)
               | none => none)
            | none => none
      else if c = '"' then
        (parseStringBody r).map (fun p => (JSON.str ⟨p.1⟩, p.2))
      else if c = '-' then
        match takeDigits r with
        | ([], _) => none
        | (ds, r2) => some (JSON.num (-(digitsToNat ds : Int)), r2)
      else if c.isDigit then
        match takeDigits (c :: r) with
        | (ds, r2) => some (JSON.num (digitsToNat ds : Int), r2)
      else if c = 'n' then
        match r with
        | 'u' :: 'l' :: 'l' :: r2 => some (JSON.null, r2)
        | _ => none
      else if c = 't' then
        match r with
        | 'r' :: 'u' :: 'e' :: r2 => some (JSON.bool true, r2)
        | _ => none
      else if c = 'f' then
        match r with
        | 'a' :: 'l' :: 's' :: 'e' :: r2 => some (JSON.bool false, r2)
        | _ => none
      else none

/-- Parse the remaining elements of a JSON array after one element:
either `]` or `, value` repeated. -/
def parseElemsTail : Nat → List Char → Option (List JSON × List Char)
  | 0, _ => none
  | fuel + 1, cs =>
    match skipWs cs with
    | ']' :: r => some ([], r)
    | ',' :: r =>
      (match parseValue fuel r with
       | some (v, r2) =>
         (match parseElemsTail fuel r2 with
          | some (vs, r3) => some (v :: vs, r3)
          | none => none)
       | none => none)
    | _ => none

/-- Parse the remaining members of a JSON object after one member:
either the closing brace or `, "key": value` repeated. -/
def parseMembersTail : Nat → List Char → Option (List (String × JSON) × List Char)
  | 0, _ => none
  | fuel + 1, cs =>
    match skipWs cs with
    | [] => none
    | c :: r =>
      if c = rbrace then some ([], r)
      else if c = ',' then
        match skipWs r with
        | '"' :: r2 =>
          (match parseStringBody r2 with
           | some (k, r3) =>
             (match skipWs r3 with
              | ':' :: r4 =>
                (match parseValue fuel r4 with
                 | some (v, r5) =>
                   (match parseMembersTail fuel r5 with
                    | some (kvs, r6) => some ((⟨k⟩, v) :: kvs, r6)
                    | none => none)
                 | none => none)
              | _ => none)
           | none => none)
        | _ => none
      else none

end

/-- Model of Python's `json.loads`: parse a whole string as one JSON value,
requiring only trailing whitespace after it; `none` models `JSONDecodeError`. -/
def jsonParse (s : String) : Option JSON :=
  match parseValue (s.data.length + 1) s.data with
  | some (v, rest) => if (skipWs rest).isEmpty then some v else none
  | none => none

/-- Hexadecimal digit character for a value below 16. -/
def hexDigitChar (n : Nat) : Char :=
  if n < 10 then Char.ofNat (48 + n) else Char.ofNat (87 + n)

/-- Escape one character for inclusion in a serialized JSON string. -/
def escapeChar (c : Char) : List Char :=
  if c = '"' then ['\\', '"']
  else if c = '\\' then ['\\', '\\']
  else if c.toNat < 32 then
    ['\\', 'u', '0', '0', hexDigitChar (c.toNat / 16), hexDigitChar (c.toNat % 16)]
  else [c]

/-- Escape every character of a string body. -/
def escapeChars : List Char → List Char
  | [] => []
  | c :: cs => escapeChar c ++ escapeChars cs

/-- Decimal digit characters of a natural number, most significant first;
structural recursion on a fuel that the wrapper instantiates with `n`. -/
def natToCharsAux : Nat → Nat → List Char
  | 0, n => [Char.ofNat (48 + n)]
  | fuel + 1, n =>
    if n < 10 then [Char.ofNat (48 + n)]
    else natToCharsAux fuel (n / 10) ++ [Char.ofNat (48 + n % 10)]

/-- Decimal digit characters of a natural number, most significant first. -/
def natToChars (n : Nat) : List Char := natToCharsAux n n

/-- Decimal representation of an integer. -/
def intToChars (i : Int) : List Char :=
  if i < 0 then '-' :: natToChars i.natAbs else natToChars i.natAbs

mutual

/-- Compact JSON serializer (no insignificant whitespace), the model of
serializing a ranking result back to text. -/
def serialize : JSON → List Char
  | JSON.null => ['n', 'u', 'l', 'l']
  | JSON.bool true => ['t', 'r', 'u', 'e']
  | JSON.bool false => ['f', 'a', 'l', 's', 'e']
  | JSON.num i => intToChars i
  | JSON.str s => '"' :: (escapeChars s.data ++ ['"'])
  | JSON.arr es => '[' :: (serializeElems es ++ [']'])
  | JSON.obj kvs => lbrace :: (serializeMembers kvs ++ [rbrace])

/-- Comma-separated serialization of array elements. -/
def serializeElems : List JSON → List Char
  | [] => []
  | [e] => serialize e
  | e :: es => serialize e ++ ',' :: serializeElems es

/-- Comma-separated serialization of object members. -/
def serializeMembers : List (String × JSON) → List Char
  | [] => []
  | [(k, v)] => '"' :: (escapeChars k.data ++ '"' :: ':' :: serialize v)
  | (k, v) :: kvs =>
    '"' :: (escapeChars k.data ++ '"' :: ':' :: (serialize v ++ ',' :: serializeMembers kvs))

end

/-- Serialize a JSON value to a string. -/
def jsonSerialize (j : JSON) : String := ⟨serialize j⟩

/-! ## The application model (`src/app.py`) -/

/-- One uploaded file: its name and the outcome of the underlying PDF text
extraction (`fitz`); `none` models the extraction library raising. -/
structure UploadedFile where
  name : String
  extraction : Option String

/-- One resume record, as built by `process_bulk_resumes` (app.py 130-133). -/
structure ResumeInput where
  name : String
  content : String

/-- Model of `extract_text_from_pdf` (app.py 99-106): on success the extracted
text is stripped; any exception is caught and the empty string returned. -/
def extract_text_from_pdf (f : UploadedFile) : String :=
  match f.extraction with
  | some t => t.trim
  | none => ""

/-- One synthesized fallback entry (app.py 164-171, identical at 179-188,
194-203 and 210-220): zero match, rank `idx + 1`, constant strengths/gaps. -/
def fallbackEntry (idx : Nat) (r : ResumeInput) : JSON :=
  JSON.obj
    [("resume_name", JSON.str r.name),
     ("match_percentage", JSON.num 0),
     ("rank", JSON.num (Int.ofNat (idx + 1))),
     ("strengths", JSON.arr [JSON.str "Unable to analyze strengths"]),
     ("gaps", JSON.arr [JSON.str "Unable to analyze gaps"])]

/-- The fallback entries for `enumerate(all_resumes)` starting at index `i`. -/
def fallbackEntries (i : Nat) : List ResumeInput → List JSON
  | [] => []
  | r :: rs => fallbackEntry i r :: fallbackEntries (i + 1) rs

/-- The synthesized fallback ranking structure (app.py 163-174; the same
comprehension is repeated verbatim at 178-189, 193-204 and 210-221). -/
def fallbackRankings (resumes : List ResumeInput) : JSON :=
  JSON.obj [("rankings", JSON.arr (fallbackEntries 0 resumes))]

/-- Model of line 192's check `isinstance(rankings, dict) and "rankings" in
rankings`: a dict (object) whose keys include `"rankings"`. -/
def isValidRankings : JSON → Bool
  | JSON.obj fields => fields.any (fun kv => kv.1 == "rankings")
  | _ => false

/-- First index of a character in a string, Python's `str.find` (app.py 156);
`none` models the return value `-1`. -/
def findIdxChar (s : String) (c : Char) : Option Nat :=
  List.findIdx? (fun x => x == c) s.data

/-- Last index of a character in a string, Python's `str.rfind` (app.py 157). -/
def rfindIdxChar (s : String) (c : Char) : Option Nat :=
  match List.findIdx? (fun x => x == c) s.data.reverse with
  | some i => some (s.data.length - 1 - i)
  | none => none

/-- Python slice `s[a:b]` for code-point indices. -/
def sliceStr (s : String) (a b : Nat) : String := ⟨(s.data.drop a).take (b - a)⟩

/-- Model of the parse-and-validate stage of `process_bulk_resumes`
(app.py 149-206): direct `json.loads`; on `JSONDecodeError` the first-brace to
last-brace substring is parsed, with any failure there (no braces found, or the
substring failing to parse) replaced by the synthesized fallback; finally a
value that is not a dict containing the key `"rankings"` is replaced by the
fallback.  All Python exceptions on this path are absorbed by its `except`
arms, which the `Option`-valued parser mirrors, so the model is total. -/
def normalizeResponse (all_resumes : List ResumeInput) (response : String) : JSON :=
  let rankings :=
    match jsonParse response with
    | some v => v
    | none =>
      match findIdxChar response lbrace, rfindIdxChar response rbrace with
      | some s, some e =>
        (match jsonParse (sliceStr response s (e + 1)) with
         | some v => v
         | none => fallbackRankings all_resumes)
      | _, _ => fallbackRankings all_resumes
  if isValidRankings rankings then rankings else fallbackRankings all_resumes

/-- The resume records built from the uploaded files (app.py 126-135): every
file yields exactly one record, because `extract_text_from_pdf` returns a
string on every input (its own `except` returns `""`). -/
def resumesOf (uploaded_files : List UploadedFile) : List ResumeInput :=
  uploaded_files.map (fun f => { name := f.name, content := extract_text_from_pdf f })

/-- Model of `process_bulk_resumes` (app.py 125-221).  `aiResponse = none`
models the AI call raising, handled by the outer `except` (app.py 207-221)
which returns the synthesized fallback; otherwise the raw response string is
normalized.  `none` is returned only by line 138's empty-list check. -/
def process_bulk_resumes (job_description : String) (uploaded_files : List UploadedFile)
    (aiResponse : Option String) : Option JSON :=
  let all_resumes := resumesOf uploaded_files
  if all_resumes.isEmpty then none
  else
    match aiResponse with
    | some response => some (normalizeResponse all_resumes response)
    | none => some (fallbackRankings all_resumes)

/-! ## Observers -/

/-- Look up a key in an object's field list (first occurrence). -/
def lookupKey : List (String × JSON) → String → Option JSON
  | [], _ => none
  | (k, v) :: kvs, key => if k == key then some v else lookupKey kvs key

/-- The list of ranking entries of a result, when it has the canonical shape. -/
def entriesOf (j : JSON) : Option (List JSON) :=
  match j with
  | JSON.obj fields =>
    (match lookupKey fields "rankings" with
     | some (JSON.arr l) => some l
     | _ => none)
  | _ => none

/-- Number of ranking entries of a result, when it has the canonical shape. -/
def rankingsCount (j : JSON) : Option Nat := (entriesOf j).map List.length

/-- A field of the `i`-th ranking entry of a result. -/
def entryField (j : JSON) (i : Nat) (key : String) : Option JSON :=
  match entriesOf j with
  | some l =>
    (match l.get? i with
     | some (JSON.obj fields) => lookupKey fields key
     | _ => none)
  | none => none

/-! ## Spec-side definitions, for refinement comparison

These two definitions follow the words of spec.md section 4.2 (not the code);
they exist only to compare the spec's described algorithm with the code's. -/

/-- Validation as worded by the spec (section 4.2 step 4): a structured record
containing a key `rankings` whose value is a sequence. -/
def specValid (j : JSON) : Bool :=
  match j with
  | JSON.obj fields =>
    (match lookupKey fields "rankings" with
     | some (JSON.arr _) => true
     | _ => false)
  | _ => false

/-- Substring extraction as worded by the spec (section 4.2 step 2): first
brace and last brace must both exist with the first preceding the last. -/
def specStep2 (resumes : List ResumeInput) (raw : String) : JSON :=
  match findIdxChar raw lbrace, rfindIdxChar raw rbrace with
  | some s, some e =>
    if s < e then
      match jsonParse (sliceStr raw s (e + 1)) with
      | some v => if specValid v then v else fallbackRankings resumes
      | none => fallbackRankings resumes
    else fallbackRankings resumes
  | _, _ => fallbackRankings resumes

/-- The ordered fallback chain as worded by the spec (section 4.2): step 1
succeeds only if the parse yields a value AND it passes Validation; otherwise
step 2 is attempted. -/
def specNormalize (resumes : List ResumeInput) (raw : String) : JSON :=
  match jsonParse raw with
  | some v => if specValid v then v else specStep2 resumes raw
  | none => specStep2 resumes raw

/-- The character text that follows the first serialized fallback entry inside
the serialized entries array: either the closing bracket or a comma and the
next serialized entry, repeated. -/
def entriesTailChars : List ResumeInput → Nat → List Char → List Char
  | [], _, rest => ']' :: rest
  | r :: rs, i, rest => ',' :: (serialize (fallbackEntry i r) ++ entriesTailChars rs (i + 1) rest)

/-- A value the normalizer recovered from the raw string: either a direct
parse of the whole string, or a parse of its first-brace to last-brace
substring after the direct parse failed. -/
def recoveredFrom (raw : String) (v : JSON) : Prop :=
  jsonParse raw = some v ∨
    (jsonParse raw = none ∧ ∃ s e, findIdxChar raw lbrace = some s ∧
      rfindIdxChar raw rbrace = some e ∧ jsonParse (sliceStr raw s (e + 1)) = some v)

/-! ## Basic lemmas -/

set_option maxRecDepth 40000

theorem fallbackEntries_length (rs : List ResumeInput) :
    ∀ i, (fallbackEntries i rs).length = rs.length := by
  induction rs with
  | nil => intro i; rfl
  | cons r rs ih => intro i; simp [fallbackEntries, ih]

theorem entriesOf_fallback (rs : List ResumeInput) :
    entriesOf (fallbackRankings rs) = some (fallbackEntries 0 rs) := rfl

theorem rankingsCount_fallback (rs : List ResumeInput) :
    rankingsCount (fallbackRankings rs) = some rs.length := by
  simp [rankingsCount, entriesOf_fallback, fallbackEntries_length]

theorem isValid_fallback (rs : List ResumeInput) :
    isValidRankings (fallbackRankings rs) = true := rfl

theorem lookupKey_any {kvs : List (String × JSON)} {key : String} {v : JSON}
    (h : lookupKey kvs key = some v) : kvs.any (fun kv => kv.1 == key) = true := by
  induction kvs with
  | nil => simp [lookupKey] at h
  | cons kv kvs ih =>
    by_cases hk : kv.1 == key
    · simp [List.any_cons, hk]
    · obtain ⟨k1, v1⟩ := kv
      simp only [lookupKey] at h
      rw [if_neg (by simpa using hk)] at h
      simp [List.any_cons, ih h]

theorem normalizeResponse_parse_some {resumes : List ResumeInput} {raw : String} {v : JSON}
    (h : jsonParse raw = some v) :
    normalizeResponse resumes raw = if isValidRankings v then v else fallbackRankings resumes := by
  simp [normalizeResponse, h]

theorem normalizeResponse_parse_none_sub {resumes : List ResumeInput} {raw : String} {s e : Nat}
    (h : jsonParse raw = none) (h2 : findIdxChar raw lbrace = some s)
    (h3 : rfindIdxChar raw rbrace = some e) :
    normalizeResponse resumes raw =
      (match jsonParse (sliceStr raw s (e + 1)) with
       | some v => if isValidRankings v then v else fallbackRankings resumes
       | none => fallbackRankings resumes) := by
  cases hp : jsonParse (sliceStr raw s (e + 1)) with
  | none => simp [normalizeResponse, h, h2, h3, hp, isValid_fallback]
  | some v => simp [normalizeResponse, h, h2, h3, hp]

theorem normalizeResponse_no_braces {resumes : List ResumeInput} {raw : String}
    (h : jsonParse raw = none) (h2 : findIdxChar raw lbrace = none) :
    normalizeResponse resumes raw = fallbackRankings resumes := by
  cases hr : rfindIdxChar raw rbrace <;>
    simp [normalizeResponse, h, h2, hr, isValid_fallback]

theorem normalizeResponse_no_rbrace {resumes : List ResumeInput} {raw : String} {s : Nat}
    (h : jsonParse raw = none) (h2 : findIdxChar raw lbrace = some s)
    (h3 : rfindIdxChar raw rbrace = none) :
    normalizeResponse resumes raw = fallbackRankings resumes := by
  simp [normalizeResponse, h, h2, h3, isValid_fallback]

theorem fallbackEntries_get? (rs : List ResumeInput) :
    ∀ i k r, rs.get? k = some r →
      (fallbackEntries i rs).get? k = some (fallbackEntry (i + k) r) := by
  induction rs with
  | nil => intro i k r h; simp at h
  | cons r0 rs ih =>
    intro i k r h
    cases k with
    | zero => simp at h; simp [fallbackEntries, h]
    | succ k =>
      simp only [List.get?] at h
      have := ih (i + 1) k r h
      simpa [fallbackEntries, Nat.add_assoc, Nat.add_comm 1 k] using this

theorem entryField_fallback (rs : List ResumeInput) (k : Nat) (r : ResumeInput)
    (h : rs.get? k = some r) :
    entryField (fallbackRankings rs) k "resume_name" = some (JSON.str r.name) ∧
    entryField (fallbackRankings rs) k "match_percentage" = some (JSON.num 0) ∧
    entryField (fallbackRankings rs) k "rank" = some (JSON.num (Int.ofNat (k + 1))) ∧
    entryField (fallbackRankings rs) k "strengths"
      = some (JSON.arr [JSON.str "Unable to analyze strengths"]) ∧
    entryField (fallbackRankings rs) k "gaps"
      = some (JSON.arr [JSON.str "Unable to analyze gaps"]) := by
  have hget := fallbackEntries_get? rs 0 k r h
  rw [Nat.zero_add] at hget
  unfold entryField
  rw [entriesOf_fallback]
  simp only [hget]
  exact ⟨rfl, rfl, rfl, rfl, rfl⟩

theorem isValidRankings_shape {v : JSON} (hv : isValidRankings v = true) :
    ∃ fields, v = JSON.obj fields ∧ fields.any (fun kv => kv.1 == "rankings") = true := by
  cases v with
  | obj fields => exact ⟨fields, rfl, hv⟩
  | null => simp [isValidRankings] at hv
  | bool b => simp [isValidRankings] at hv
  | num i => simp [isValidRankings] at hv
  | str s => simp [isValidRankings] at hv
  | arr l => simp [isValidRankings] at hv

theorem normalizeResponse_cases (resumes : List ResumeInput) (raw : String) :
    normalizeResponse resumes raw = fallbackRankings resumes ∨
    ∃ v, recoveredFrom raw v ∧ isValidRankings v = true ∧
      normalizeResponse resumes raw = v := by
  cases hp : jsonParse raw with
  | some v =>
    rw [normalizeResponse_parse_some hp]
    by_cases hv : isValidRankings v = true
    · exact Or.inr ⟨v, Or.inl hp, hv, by rw [if_pos hv]⟩
    · rw [if_neg hv]
      exact Or.inl rfl
  | none =>
    cases hf : findIdxChar raw lbrace with
    | none => exact Or.inl (normalizeResponse_no_braces hp hf)
    | some s =>
      cases hr : rfindIdxChar raw rbrace with
      | none => exact Or.inl (normalizeResponse_no_rbrace hp hf hr)
      | some e =>
        rw [normalizeResponse_parse_none_sub hp hf hr]
        cases hps : jsonParse (sliceStr raw s (e + 1)) with
        | none => exact Or.inl rfl
        | some v =>
          by_cases hv : isValidRankings v = true
          · exact Or.inr ⟨v, Or.inr ⟨hp, s, e, hf, hr, hps⟩, hv, by simp [if_pos hv]⟩
          · simp only [if_neg hv]
            exact Or.inl (by simp)

/-! ## Claims -/

/-- C1 (counterexample): with one input resume, the raw string
`{"rankings": []}` parses directly, passes line 192's check, and is returned
unchanged with zero entries — not one entry per input resume. -/
theorem C1_counterexample :
    rankingsCount (normalizeResponse [⟨"a.pdf", "text"⟩] "\x7b\"rankings\": []\x7d")
      = some 0 ∧
    ([(⟨"a.pdf", "text"⟩ : ResumeInput)]).length = 1 ∧ (0 : Nat) ≠ 1 :=
  ⟨rfl, rfl, by decide⟩

/-- C1 (amended): the output of the parse-and-validate stage has exactly one
ranking entry per input resume whenever the normalizer synthesized the
fallback; otherwise the raw string itself supplied a value that passed line
192's check, and that value is returned unchanged, with whatever cardinality
it happens to contain. -/
theorem C1_cardinality_or_passthrough (resumes : List ResumeInput) (raw : String) :
    rankingsCount (normalizeResponse resumes raw) = some resumes.length ∨
    ∃ v, recoveredFrom raw v ∧ isValidRankings v = true ∧
      normalizeResponse resumes raw = v := by
  rcases normalizeResponse_cases resumes raw with h | h
  · rw [h]; exact Or.inl (rankingsCount_fallback resumes)
  · exact Or.inr h

/-- C2 (confirmed): the parse-and-validate stage is a total function — every
exception of the Python chain is caught by its `except` arms, which the
`Option`-valued model reflects — and its result is always a record (dict)
containing the key `"rankings"`: parse and validation failures only ever
select the synthesized fallback, which has that shape. -/
theorem C2_total_and_structurally_valid (resumes : List ResumeInput) (raw : String) :
    ∃ fields, normalizeResponse resumes raw = JSON.obj fields ∧
      fields.any (fun kv => kv.1 == "rankings") = true := by
  rcases normalizeResponse_cases resumes raw with h | ⟨v, _, hv, hout⟩
  · exact ⟨_, h, isValid_fallback resumes⟩
  · obtain ⟨fields, rfl, hany⟩ := isValidRankings_shape hv
    exact ⟨fields, hout, hany⟩

/-- C3 (confirmed): whenever fallback synthesis is triggered — no value was
recovered from the raw string, or every recovered value fails line 192's
check — the output is the synthesized structure with exactly one entry per
input resume, in input order, whose `i`-th entry carries the `i`-th resume's
name, `match_percentage = 0`, `rank = i + 1`, and the two constant lists. -/
theorem C3_fallback_shape (resumes : List ResumeInput) (raw : String)
    (htrigger : ∀ v, recoveredFrom raw v → isValidRankings v = false) :
    normalizeResponse resumes raw = fallbackRankings resumes ∧
    rankingsCount (normalizeResponse resumes raw) = some resumes.length ∧
    ∀ k r, resumes.get? k = some r →
      entryField (normalizeResponse resumes raw) k "resume_name"
        = some (JSON.str r.name) ∧
      entryField (normalizeResponse resumes raw) k "match_percentage"
        = some (JSON.num 0) ∧
      entryField (normalizeResponse resumes raw) k "rank"
        = some (JSON.num (Int.ofNat (k + 1))) ∧
      entryField (normalizeResponse resumes raw) k "strengths"
        = some (JSON.arr [JSON.str "Unable to analyze strengths"]) ∧
      entryField (normalizeResponse resumes raw) k "gaps"
        = some (JSON.arr [JSON.str "Unable to analyze gaps"]) := by
  have h0 : normalizeResponse resumes raw = fallbackRankings resumes := by
    rcases normalizeResponse_cases resumes raw with h | ⟨v, hrec, hv, _⟩
    · exact h
    · rw [htrigger v hrec] at hv; exact absurd hv (by simp)
  refine ⟨h0, ?_, ?_⟩
  · rw [h0]; exact rankingsCount_fallback resumes
  · intro k r hk
    rw [h0]
    exact entryField_fallback resumes k r hk

/-- C3 (witness): for the three resumes `A, B, C` and the unparseable raw
string `"not json"` (which contains no brace), the synthesized entries carry
ranks 1, 2, 3 in that order with zero match percentages. -/
theorem C3_witness :
    normalizeResponse [⟨"A.pdf", "a"⟩, ⟨"B.pdf", "b"⟩, ⟨"C.pdf", "c"⟩] "not json"
      = fallbackRankings [⟨"A.pdf", "a"⟩, ⟨"B.pdf", "b"⟩, ⟨"C.pdf", "c"⟩] ∧
    rankingsCount
      (normalizeResponse [⟨"A.pdf", "a"⟩, ⟨"B.pdf", "b"⟩, ⟨"C.pdf", "c"⟩] "not json")
      = some 3 ∧
    entryField
      (normalizeResponse [⟨"A.pdf", "a"⟩, ⟨"B.pdf", "b"⟩, ⟨"C.pdf", "c"⟩] "not json")
      0 "rank" = some (JSON.num 1) ∧
    entryField
      (normalizeResponse [⟨"A.pdf", "a"⟩, ⟨"B.pdf", "b"⟩, ⟨"C.pdf", "c"⟩] "not json")
      1 "rank" = some (JSON.num 2) ∧
    entryField
      (normalizeResponse [⟨"A.pdf", "a"⟩, ⟨"B.pdf", "b"⟩, ⟨"C.pdf", "c"⟩] "not json")
      2 "rank" = some (JSON.num 3) ∧
    entryField
      (normalizeResponse [⟨"A.pdf", "a"⟩, ⟨"B.pdf", "b"⟩, ⟨"C.pdf", "c"⟩] "not json")
      0 "match_percentage" = some (JSON.num 0) := by
  have htrigger : ∀ v, recoveredFrom "not json" v → isValidRankings v = false := by
    intro v hrec
    rcases hrec with hp | ⟨_, s, e, hf, _, _⟩
    · rw [show jsonParse "not json" = none from rfl] at hp
      exact Option.noConfusion hp
    · rw [show findIdxChar "not json" lbrace = none from rfl] at hf
      exact Option.noConfusion hf
  obtain ⟨h0, h1, h2⟩ :=
    C3_fallback_shape [⟨"A.pdf", "a"⟩, ⟨"B.pdf", "b"⟩, ⟨"C.pdf", "c"⟩] "not json" htrigger
  refine ⟨h0, h1, ?_, ?_, ?_, ?_⟩
  · exact (h2 0 ⟨"A.pdf", "a"⟩ rfl).2.2.1
  · exact (h2 1 ⟨"B.pdf", "b"⟩ rfl).2.2.1
  · exact (h2 2 ⟨"C.pdf", "c"⟩ rfl).2.2.1
  · exact (h2 0 ⟨"A.pdf", "a"⟩ rfl).2.1

/-- C4 (counterexample): for `raw = "[{\"rankings\": []}]"` the direct parse
succeeds with a JSON array, which fails line 192's check; the spec's chain
would then attempt substring extraction and recover `{"rankings": []}` (as
`specNormalize` does), but the code reaches the substring step only from the
`json.JSONDecodeError` handler, so it synthesizes the fallback instead: the
two results differ (one entry versus zero). -/
theorem C4_counterexample :
    jsonParse "[\x7b\"rankings\": []\x7d]"
      = some (JSON.arr [JSON.obj [("rankings", JSON.arr [])]]) ∧
    isValidRankings (JSON.arr [JSON.obj [("rankings", JSON.arr [])]]) = false ∧
    specNormalize [⟨"a.pdf", "text"⟩] "[\x7b\"rankings\": []\x7d]"
      = JSON.obj [("rankings", JSON.arr [])] ∧
    normalizeResponse [⟨"a.pdf", "text"⟩] "[\x7b\"rankings\": []\x7d]"
      = fallbackRankings [⟨"a.pdf", "text"⟩] ∧
    rankingsCount (fallbackRankings [⟨"a.pdf", "text"⟩]) = some 1 ∧
    rankingsCount (JSON.obj [("rankings", JSON.arr [])]) = some 0 ∧ (1 : Nat) ≠ 0 :=
  ⟨rfl, rfl, rfl, rfl, rfl, rfl, by decide⟩

/-- C4 (amended): substring extraction is attempted only when the direct parse
fails to parse `raw` at all (`json.JSONDecodeError`); when `raw` parses
successfully but the parsed value fails the Validation check, the normalizer
synthesizes the fallback directly, skipping substring extraction. -/
theorem C4_no_substring_after_successful_parse (resumes : List ResumeInput)
    (raw : String) (v : JSON) (h1 : jsonParse raw = some v)
    (h2 : isValidRankings v = false) :
    normalizeResponse resumes raw = fallbackRankings resumes := by
  rw [normalizeResponse_parse_some h1, if_neg (by simp [h2])]

/-- C4 (witness): the raw string `"[0]"` parses to a JSON array, which fails
the check, so the one-resume fallback is synthesized without consulting the
embedded-substring step. -/
theorem C4_witness :
    normalizeResponse [⟨"a.pdf", "text"⟩] "[0]" = fallbackRankings [⟨"a.pdf", "text"⟩] :=
  C4_no_substring_after_successful_parse [⟨"a.pdf", "text"⟩] "[0]"
    (JSON.arr [JSON.num 0]) rfl rfl

/-- C5 (counterexample): line 192 only tests `isinstance(rankings, dict)` and
key membership, so `{"rankings": 0}` — where `rankings` is not a sequence —
is ACCEPTED and returned unchanged, while the spec's Validation (which demands
a sequence) rejects it.  The claim's "only if ... whose value is a sequence"
is false of the code. -/
theorem C5_counterexample :
    jsonParse "\x7b\"rankings\": 0\x7d" = some (JSON.obj [("rankings", JSON.num 0)]) ∧
    specValid (JSON.obj [("rankings", JSON.num 0)]) = false ∧
    isValidRankings (JSON.obj [("rankings", JSON.num 0)]) = true ∧
    normalizeResponse [⟨"a.pdf", "text"⟩] "\x7b\"rankings\": 0\x7d"
      = JSON.obj [("rankings", JSON.num 0)] ∧
    rankingsCount (JSON.obj [("rankings", JSON.num 0)]) = none ∧
    rankingsCount (fallbackRankings [⟨"a.pdf", "text"⟩]) = some 1 :=
  ⟨rfl, rfl, rfl, rfl, rfl, rfl⟩

/-- C5 (amended): the Validation check accepts a parsed value if and only if
it is a structured record (dict) containing the key `rankings` — the value
under that key is not inspected at all (it need not be a sequence), and no
field-level validation is applied: accepted values pass through unchanged. -/
theorem C5_validation_characterization (resumes : List ResumeInput) (raw : String)
    (v : JSON) (h : jsonParse raw = some v) :
    (isValidRankings v = true ↔
      ∃ fields, v = JSON.obj fields ∧ ∃ kv ∈ fields, kv.1 = "rankings") ∧
    (isValidRankings v = true → normalizeResponse resumes raw = v) ∧
    (isValidRankings v = false → normalizeResponse resumes raw = fallbackRankings resumes) := by
  refine ⟨?_, ?_, ?_⟩
  · constructor
    · intro hv
      obtain ⟨fields, rfl, hany⟩ := isValidRankings_shape hv
      simp only [List.any_eq_true, beq_iff_eq] at hany
      exact ⟨fields, rfl, hany⟩
    · rintro ⟨fields, rfl, kv, hmem, hkey⟩
      simp only [isValidRankings, List.any_eq_true, beq_iff_eq]
      exact ⟨kv, hmem, hkey⟩
  · intro hv
    rw [normalizeResponse_parse_some h, if_pos hv]
  · intro hv
    rw [normalizeResponse_parse_some h, if_neg (by simp [hv])]

/-- C5 (witness): for `raw = "{\"rankings\": [1]}"`, the parsed record
contains the key and is passed through unchanged. -/
theorem C5_witness :
    isValidRankings (JSON.obj [("rankings", JSON.arr [JSON.num 1])]) = true ∧
    normalizeResponse [⟨"a.pdf", "text"⟩] "\x7b\"rankings\": [1]\x7d"
      = JSON.obj [("rankings", JSON.arr [JSON.num 1])] := by
  have h := C5_validation_characterization [⟨"a.pdf", "text"⟩]
    "\x7b\"rankings\": [1]\x7d" (JSON.obj [("rankings", JSON.arr [JSON.num 1])]) rfl
  exact ⟨rfl, h.2.1 rfl⟩

/-- C6 (confirmed): when the raw string parses directly as a record containing
a `rankings` sequence, line 192's check passes and the parsed structure is
returned unchanged — no entries added, removed, reordered or modified. -/
theorem C6_identity_passthrough (resumes : List ResumeInput) (raw : String)
    (fields : List (String × JSON)) (l : List JSON)
    (h1 : jsonParse raw = some (JSON.obj fields))
    (h2 : lookupKey fields "rankings" = some (JSON.arr l)) :
    normalizeResponse resumes raw = JSON.obj fields := by
  have hv : isValidRankings (JSON.obj fields) = true := lookupKey_any h2
  rw [normalizeResponse_parse_some h1, if_pos hv]

/-- C6 (witness): a two-entry `rankings` array, with an unrelated extra field,
comes back exactly as parsed even though there are zero input resumes matching
it. -/
theorem C6_witness :
    normalizeResponse [⟨"a.pdf", "text"⟩] "\x7b\"rankings\": [7, 8], \"note\": null\x7d"
      = JSON.obj [("rankings", JSON.arr [JSON.num 7, JSON.num 8]), ("note", JSON.null)] :=
  C6_identity_passthrough [⟨"a.pdf", "text"⟩] "\x7b\"rankings\": [7, 8], \"note\": null\x7d"
    [("rankings", JSON.arr [JSON.num 7, JSON.num 8]), ("note", JSON.null)]
    [JSON.num 7, JSON.num 8] rfl rfl

/-- C7 (confirmed): when the direct parse fails and the first brace of `raw`
precedes its last brace, the normalizer parses the inclusive substring between
them, returning the parsed value exactly when it passes the Validation check
and the synthesized fallback otherwise. -/
theorem C7_substring_extraction (resumes : List ResumeInput) (raw : String) (s e : Nat)
    (h1 : jsonParse raw = none) (h2 : findIdxChar raw lbrace = some s)
    (h3 : rfindIdxChar raw rbrace = some e) (_h4 : s < e) :
    normalizeResponse resumes raw =
      (match jsonParse (sliceStr raw s (e + 1)) with
       | some v => if isValidRankings v then v else fallbackRankings resumes
       | none => fallbackRankings resumes) :=
  normalizeResponse_parse_none_sub h1 h2 h3

/-- C7 (witness): for the spec's example shape — prose, an embedded ranking
object, more prose — the embedded structure is recovered exactly, ignoring
the leading and trailing text. -/
theorem C7_witness :
    jsonParse
      "Here is the result: \x7b\"rankings\": [\x7b\"resume_name\": \"a.pdf\", \"rank\": 1\x7d]\x7d Thanks!"
      = none ∧
    normalizeResponse [⟨"a.pdf", "text"⟩]
      "Here is the result: \x7b\"rankings\": [\x7b\"resume_name\": \"a.pdf\", \"rank\": 1\x7d]\x7d Thanks!"
      = JSON.obj [("rankings",
          JSON.arr [JSON.obj [("resume_name", JSON.str "a.pdf"), ("rank", JSON.num 1)]])] := by
  refine ⟨rfl, ?_⟩
  have h := C7_substring_extraction [⟨"a.pdf", "text"⟩]
    "Here is the result: \x7b\"rankings\": [\x7b\"resume_name\": \"a.pdf\", \"rank\": 1\x7d]\x7d Thanks!"
    20 70 rfl rfl rfl (by decide)
  exact h.trans rfl

/-- C9 (counterexample): with 3 uploaded documents of which the second fails
extraction, the failed document is NOT skipped — `extract_text_from_pdf`
swallows the failure and returns `""`, so all 3 documents are ranked and the
fallback references `b.pdf` — contradicting "ranking proceeds over the
remaining 2 with no reference to the failed one". -/
theorem C9_counterexample :
    process_bulk_resumes "jd"
        [⟨"a.pdf", some "alpha"⟩, ⟨"b.pdf", none⟩, ⟨"c.pdf", some "gamma"⟩]
        (some "no parse")
      = some (fallbackRankings [⟨"a.pdf", "alpha"⟩, ⟨"b.pdf", ""⟩, ⟨"c.pdf", "gamma"⟩]) ∧
    rankingsCount
        (fallbackRankings [⟨"a.pdf", "alpha"⟩, ⟨"b.pdf", ""⟩, ⟨"c.pdf", "gamma"⟩])
      = some 3 ∧
    entryField (fallbackRankings [⟨"a.pdf", "alpha"⟩, ⟨"b.pdf", ""⟩, ⟨"c.pdf", "gamma"⟩])
        1 "resume_name" = some (JSON.str "b.pdf") ∧
    (3 : Nat) ≠ 2 :=
  ⟨rfl, rfl, rfl, by decide⟩

/-- C9 (amended): a document that fails text extraction is not skipped: it is
included as a resume record with empty content, and ranking proceeds over ALL
uploaded documents (the failed one included, by name); the absent result
(`None`) is reported exactly when the uploaded list itself is empty, not when
zero documents survive extraction. -/
theorem C9_failed_extraction_included (jd : String) (files : List UploadedFile)
    (raw : String) (hne : files ≠ []) (h1 : jsonParse raw = none)
    (h2 : findIdxChar raw lbrace = none) :
    process_bulk_resumes jd files (some raw)
      = some (fallbackRankings (resumesOf files)) ∧
    rankingsCount (fallbackRankings (resumesOf files)) = some files.length ∧
    ∀ k f, files.get? k = some f →
      entryField (fallbackRankings (resumesOf files)) k "resume_name"
        = some (JSON.str f.name) := by
  have hres : (resumesOf files).isEmpty = false := by
    cases files with
    | nil => exact absurd rfl hne
    | cons f fs => rfl
  refine ⟨?_, ?_, ?_⟩
  · simp only [process_bulk_resumes, hres, Bool.false_eq_true, if_false]
    rw [normalizeResponse_no_braces h1 h2]
  · rw [rankingsCount_fallback]
    simp [resumesOf]
  · intro k f hk
    have hk2 : (resumesOf files).get? k
        = some ⟨f.name, extract_text_from_pdf f⟩ := by
      rw [List.get?_eq_getElem?] at hk
      simp only [resumesOf, List.get?_eq_getElem?, List.getElem?_map, hk]
      rfl
    exact (entryField_fallback (resumesOf files) k ⟨f.name, extract_text_from_pdf f⟩ hk2).1

/-- C9 (witness): the 3-uploads-1-failure scenario instantiated: all three
documents are ranked, including the extraction-failed `b.pdf`. -/
theorem C9_witness :
    process_bulk_resumes "jd"
        [⟨"a.pdf", some "alpha"⟩, ⟨"b.pdf", none⟩, ⟨"c.pdf", some "gamma"⟩]
        (some "garbage")
      = some (fallbackRankings
          (resumesOf [⟨"a.pdf", some "alpha"⟩, ⟨"b.pdf", none⟩, ⟨"c.pdf", some "gamma"⟩])) ∧
    rankingsCount (fallbackRankings
        (resumesOf [⟨"a.pdf", some "alpha"⟩, ⟨"b.pdf", none⟩, ⟨"c.pdf", some "gamma"⟩]))
      = some 3 ∧
    entryField (fallbackRankings
        (resumesOf [⟨"a.pdf", some "alpha"⟩, ⟨"b.pdf", none⟩, ⟨"c.pdf", some "gamma"⟩]))
      1 "resume_name" = some (JSON.str "b.pdf") := by
  obtain ⟨h1, h2, h3⟩ := C9_failed_extraction_included "jd"
    [⟨"a.pdf", some "alpha"⟩, ⟨"b.pdf", none⟩, ⟨"c.pdf", some "gamma"⟩]
    "garbage" (by simp) rfl rfl
  exact ⟨h1, h2, h3 1 ⟨"b.pdf", none⟩ rfl⟩

/-- C10 (confirmed): `extract_text_from_pdf` never raises — on extraction
failure it returns `""` — so every uploaded file contributes exactly one
resume record, and `process_bulk_resumes` returns the absent result (`None`)
exactly when the uploaded file list is empty. -/
theorem C10_extraction_total (jd : String) (files : List UploadedFile)
    (resp : Option String) (f : UploadedFile) :
    (f.extraction = none → extract_text_from_pdf f = "") ∧
    (resumesOf files).length = files.length ∧
    (process_bulk_resumes jd files resp = none ↔ files = []) := by
  refine ⟨?_, ?_, ?_⟩
  · intro h; simp [extract_text_from_pdf, h]
  · simp [resumesOf]
  · constructor
    · intro h
      cases files with
      | nil => rfl
      | cons g gs =>
        exfalso
        have hres : (resumesOf (g :: gs)).isEmpty = false := rfl
        cases resp <;>
          simp [process_bulk_resumes, hres] at h
    · rintro rfl
      rfl

/-- C10 (witness): a single file whose extraction fails still yields a resume
record, and the result is absent only for an empty upload list. -/
theorem C10_witness :
    extract_text_from_pdf ⟨"b.pdf", none⟩ = "" ∧
    (resumesOf [⟨"b.pdf", none⟩]).length = 1 ∧
    (process_bulk_resumes "jd" [⟨"b.pdf", none⟩] none = none
      ↔ [(⟨"b.pdf", none⟩ : UploadedFile)] = []) := by
  obtain ⟨h1, h2, h3⟩ := C10_extraction_total "jd" [⟨"b.pdf", none⟩] none ⟨"b.pdf", none⟩
  exact ⟨h1 rfl, h2, h3⟩

theorem skipWs_cons {c : Char} (h : isWs c = false) (cs : List Char) :
    skipWs (c :: cs) = c :: cs := by simp [skipWs, h]

theorem hexVal_hexDigitChar {n : Nat} (h : n < 16) : hexVal (hexDigitChar n) = some n := by
  interval_cases n <;> decide

theorem psb_quote (rest : List Char) : parseStringBody ('"' :: rest) = some ([], rest) := by
  conv_lhs => rw [parseStringBody.eq_def]
  simp

theorem psb_escape {e d : Char} (he : escChar e = some d) (he2 : ¬ e = 'u')
    (rest : List Char) :
    parseStringBody ('\\' :: e :: rest)
      = (parseStringBody rest).map (fun p => (d :: p.1, p.2)) := by
  conv_lhs => rw [parseStringBody.eq_def]
  simp [he2, he]

theorem psb_plain {c : Char} (h1 : ¬ c = '"') (h2 : ¬ c = '\\') (rest : List Char) :
    parseStringBody (c :: rest)
      = (parseStringBody rest).map (fun p => (c :: p.1, p.2)) := by
  conv_lhs => rw [parseStringBody.eq_def]
  simp [h1, h2]

theorem psb_unicode {c : Char} (h3 : c.toNat < 32) (rest : List Char) :
    parseStringBody ('\\' :: 'u' :: '0' :: '0'
        :: hexDigitChar (c.toNat / 16) :: hexDigitChar (c.toNat % 16) :: rest)
      = (parseStringBody rest).map (fun p => (c :: p.1, p.2)) := by
  have h0 : hexVal '0' = some 0 := rfl
  have hd1 : hexVal (hexDigitChar (c.toNat / 16)) = some (c.toNat / 16) :=
    hexVal_hexDigitChar (by omega)
  have hd2 : hexVal (hexDigitChar (c.toNat % 16)) = some (c.toNat % 16) :=
    hexVal_hexDigitChar (by omega)
  conv_lhs => rw [parseStringBody.eq_def]
  simp [h0, hd1, hd2]
  have harith : c.toNat / 16 * 16 + c.toNat % 16 = c.toNat := by omega
  rw [harith, Char.ofNat_toNat]

theorem psb_escapeChar (c : Char) (rest : List Char) :
    parseStringBody (escapeChar c ++ rest)
      = (parseStringBody rest).map (fun p => (c :: p.1, p.2)) := by
  unfold escapeChar
  by_cases h1 : c = '"'
  · subst h1
    simpa using psb_escape (show escChar '"' = some '"' from rfl) (by decide) rest
  · by_cases h2 : c = '\\'
    · subst h2
      simpa using psb_escape (show escChar '\\' = some '\\' from rfl) (by decide) rest
    · by_cases h3 : c.toNat < 32
      · simp only [if_neg h1, if_neg h2, if_pos h3]
        simpa using psb_unicode h3 rest
      · simp only [if_neg h1, if_neg h2, if_neg h3]
        simpa using psb_plain h1 h2 rest

theorem psb_escapeChars (s : List Char) (rest : List Char) :
    parseStringBody (escapeChars s ++ '"' :: rest) = some (s, rest) := by
  induction s with
  | nil =>
    show parseStringBody ([] ++ '"' :: rest) = some ([], rest)
    rw [List.nil_append, psb_quote]
  | cons c cs ih =>
    rw [escapeChars, List.append_assoc, psb_escapeChar, ih]
    rfl

theorem quote_ne_lbrace : ¬ ('"' = lbrace) := by decide

theorem quote_not_ws : isWs '"' = false := rfl

theorem parseValue_str (fuel : Nat) (s : String) (rest : List Char) :
    parseValue (fuel + 1) ('"' :: (escapeChars s.data ++ '"' :: rest))
      = some (JSON.str s, rest) := by
  have h := psb_escapeChars s.data rest
  conv_lhs => rw [parseValue.eq_def]
  simp [skipWs_cons quote_not_ws, quote_ne_lbrace, h]

theorem isDigit_facts {c : Char} (h : c.isDigit = true) :
    ¬ c = lbrace ∧ ¬ c = '[' ∧ ¬ c = '"' ∧ ¬ c = '-' ∧ isWs c = false := by
  simp only [Char.isDigit, Bool.and_eq_true, decide_eq_true_eq] at h
  obtain ⟨hlo, hhi⟩ := h
  refine ⟨?_, ?_, ?_, ?_, ?_⟩
  · rintro rfl; exact absurd hhi (by decide)
  · rintro rfl; exact absurd hhi (by decide)
  · rintro rfl; exact absurd hlo (by decide)
  · rintro rfl; exact absurd hlo (by decide)
  · have h1 : ¬ c = ' ' := by rintro rfl; exact absurd hlo (by decide)
    have h2 : ¬ c = '\t' := by rintro rfl; exact absurd hlo (by decide)
    have h3 : ¬ c = '\n' := by rintro rfl; exact absurd hlo (by decide)
    have h4 : ¬ c = '\r' := by rintro rfl; exact absurd hlo (by decide)
    simp [isWs, h1, h2, h3, h4]

theorem digitsToNat_append (xs : List Char) (c : Char) :
    digitsToNat (xs ++ [c]) = digitsToNat xs * 10 + (c.toNat - 48) := by
  simp [digitsToNat, List.foldl_append]

theorem digitCharFacts {k : Nat} (h : k < 10) :
    (Char.ofNat (48 + k)).toNat = 48 + k ∧ (Char.ofNat (48 + k)).isDigit = true := by
  interval_cases k <;> exact ⟨rfl, rfl⟩

theorem natToCharsAux_spec :
    ∀ fuel n, n ≤ fuel →
      digitsToNat (natToCharsAux fuel n) = n ∧
      (∀ c ∈ natToCharsAux fuel n, c.isDigit = true) ∧
      natToCharsAux fuel n ≠ [] := by
  intro fuel
  induction fuel with
  | zero =>
    intro n hn
    have : n = 0 := Nat.le_zero.mp hn
    subst this
    refine ⟨rfl, ?_, by simp [natToCharsAux]⟩
    intro c hc
    simp [natToCharsAux] at hc
    subst hc
    rfl
  | succ fuel ih =>
    intro n hn
    rw [natToCharsAux]
    by_cases h10 : n < 10
    · rw [if_pos h10]
      obtain ⟨ht, hd⟩ := digitCharFacts h10
      refine ⟨?_, ?_, by simp⟩
      · simp [digitsToNat, ht]
      · intro c hc
        simp at hc
        subst hc
        exact hd
    · rw [if_neg h10]
      have hdiv : n / 10 ≤ fuel := by
        have := Nat.div_lt_self (by omega : 0 < n) (by omega : 1 < 10)
        omega
      obtain ⟨ih1, ih2, ih3⟩ := ih (n / 10) hdiv
      obtain ⟨ht, hd⟩ := digitCharFacts (Nat.mod_lt n (by omega) : n % 10 < 10)
      refine ⟨?_, ?_, by simp⟩
      · rw [digitsToNat_append, ih1, ht]
        omega
      · intro c hc
        rcases List.mem_append.mp hc with hc | hc
        · exact ih2 c hc
        · simp at hc; subst hc; exact hd

theorem natToChars_spec (n : Nat) :
    digitsToNat (natToChars n) = n ∧
    (∀ c ∈ natToChars n, c.isDigit = true) ∧
    natToChars n ≠ [] :=
  natToCharsAux_spec n n (Nat.le_refl n)

theorem takeDigits_append (ds rest : List Char)
    (hds : ∀ c ∈ ds, c.isDigit = true)
    (hrest : ∀ c cs', rest = c :: cs' → c.isDigit = false) :
    takeDigits (ds ++ rest) = (ds, rest) := by
  induction ds with
  | nil =>
    cases rest with
    | nil => rfl
    | cons c cs' => simp [takeDigits, hrest c cs' rfl]
  | cons c cs ih =>
    have hc : c.isDigit = true := hds c (List.mem_cons_self c cs)
    have ihh := ih (fun d hd => hds d (List.mem_cons_of_mem c hd))
    simp [takeDigits, hc, ihh]

theorem parseValue_nat (fuel n : Nat) (rest : List Char)
    (hrest : ∀ c cs', rest = c :: cs' → c.isDigit = false) :
    parseValue (fuel + 1) (natToChars n ++ rest) = some (JSON.num (Int.ofNat n), rest) := by
  obtain ⟨hval, hdig, hne⟩ := natToChars_spec n
  obtain ⟨d, ds', hds⟩ : ∃ d ds', natToChars n = d :: ds' := by
    cases h : natToChars n with
    | nil => exact absurd h hne
    | cons a b => exact ⟨a, b, rfl⟩
  have hd : d.isDigit = true := hdig d (by rw [hds]; exact List.mem_cons_self d ds')
  obtain ⟨f1, f2, f3, f4, f5⟩ := isDigit_facts hd
  have htake : takeDigits (natToChars n ++ rest) = (natToChars n, rest) :=
    takeDigits_append (natToChars n) rest hdig hrest
  rw [hds] at hval htake ⊢
  rw [List.cons_append] at htake ⊢
  conv_lhs => rw [parseValue.eq_def]
  simp [skipWs_cons f5, f1, f2, f3, f4, hd, htake, hval, Int.ofNat_eq_natCast]

theorem serialize_num_ofNat (n : Nat) :
    serialize (JSON.num (Int.ofNat n)) = natToChars n := by
  rw [serialize, intToChars, if_neg (by exact Int.not_lt.mpr (Int.ofNat_nonneg n)),
      show (Int.ofNat n).natAbs = n from rfl]

theorem serialize_num_zero : serialize (JSON.num 0) = natToChars 0 :=
  serialize_num_ofNat 0

theorem pmt_close (g : Nat) (rest : List Char) :
    parseMembersTail (g + 1) (rbrace :: rest) = some ([], rest) := by
  conv_lhs => rw [parseMembersTail.eq_def]
  simp [skipWs_cons (show isWs rbrace = false by decide)]

theorem pmt_step (g : Nat) (key : String) {r4 r5 r6 : List Char} {v : JSON}
    {kvs : List (String × JSON)}
    (hv : parseValue g r4 = some (v, r5))
    (ht : parseMembersTail g r5 = some (kvs, r6)) :
    parseMembersTail (g + 1) (',' :: '"' :: (escapeChars key.data ++ '"' :: ':' :: r4))
      = some ((key, v) :: kvs, r6) := by
  conv_lhs => rw [parseMembersTail.eq_def]
  simp [skipWs_cons (show isWs ',' = false from rfl),
        skipWs_cons (show isWs '"' = false from rfl),
        skipWs_cons (show isWs ':' = false from rfl),
        show ¬ (',' = rbrace) by decide, psb_escapeChars, hv, ht]

theorem pv_obj (g : Nat) (key : String) {r4 r5 r6 : List Char} {v : JSON}
    {kvs : List (String × JSON)}
    (hv : parseValue g r4 = some (v, r5))
    (ht : parseMembersTail g r5 = some (kvs, r6)) :
    parseValue (g + 1) (lbrace :: '"' :: (escapeChars key.data ++ '"' :: ':' :: r4))
      = some (JSON.obj ((key, v) :: kvs), r6) := by
  conv_lhs => rw [parseValue.eq_def]
  simp [skipWs_cons (show isWs lbrace = false by decide),
        skipWs_cons (show isWs '"' = false from rfl),
        skipWs_cons (show isWs ':' = false from rfl),
        show ¬ ('"' = rbrace) by decide, psb_escapeChars, hv, ht]

theorem pet_close (g : Nat) (rest : List Char) :
    parseElemsTail (g + 1) (']' :: rest) = some ([], rest) := by
  conv_lhs => rw [parseElemsTail.eq_def]
  simp [skipWs_cons (show isWs ']' = false from rfl)]

theorem pet_step (g : Nat) {t r2 r3 : List Char} {v : JSON} {vs : List JSON}
    (hv : parseValue g t = some (v, r2))
    (ht : parseElemsTail g r2 = some (vs, r3)) :
    parseElemsTail (g + 1) (',' :: t) = some (v :: vs, r3) := by
  conv_lhs => rw [parseElemsTail.eq_def]
  simp [skipWs_cons (show isWs ',' = false from rfl), hv, ht]

theorem pv_arr_nil (g : Nat) (rest : List Char) :
    parseValue (g + 1) ('[' :: ']' :: rest) = some (JSON.arr [], rest) := by
  conv_lhs => rw [parseValue.eq_def]
  simp [skipWs_cons (show isWs '[' = false from rfl),
        skipWs_cons (show isWs ']' = false from rfl),
        show ¬ ('[' = lbrace) by decide]

theorem pv_arr_cons (g : Nat) {c2 : Char} {r2 r3 r4 : List Char} {v : JSON} {vs : List JSON}
    (hc2 : isWs c2 = false) (hc2b : ¬ c2 = ']')
    (hv : parseValue g (c2 :: r2) = some (v, r3))
    (ht : parseElemsTail g r3 = some (vs, r4)) :
    parseValue (g + 1) ('[' :: c2 :: r2) = some (JSON.arr (v :: vs), r4) := by
  conv_lhs => rw [parseValue.eq_def]
  simp [skipWs_cons (show isWs '[' = false from rfl),
        skipWs_cons hc2,
        show ¬ ('[' = lbrace) by decide, hc2b, hv, ht]

theorem pv_arr_single_str (g : Nat) (s : String) (rest : List Char) :
    parseValue (g + 2) ('[' :: '"' :: (escapeChars s.data ++ '"' :: ']' :: rest))
      = some (JSON.arr [JSON.str s], rest) := by
  have hv : parseValue (g + 1) ('"' :: (escapeChars s.data ++ '"' :: ']' :: rest))
      = some (JSON.str s, ']' :: rest) := parseValue_str g s (']' :: rest)
  have ht : parseElemsTail (g + 1) (']' :: rest) = some ([], rest) := pet_close g rest
  exact pv_arr_cons (g + 1) rfl (by decide) hv ht

theorem intToChars_ofNat (n : Nat) : intToChars (Int.ofNat n) = natToChars n := by
  rw [intToChars, if_neg (by exact Int.not_lt.mpr (Int.ofNat_nonneg n)),
      show (Int.ofNat n).natAbs = n from rfl]

theorem serialize_fallbackEntry (i : Nat) (r : ResumeInput) (rest : List Char) :
    serialize (fallbackEntry i r) ++ rest
      = lbrace :: '"' :: (escapeChars "resume_name".data ++ '"' :: ':' ::
          ('"' :: (escapeChars r.name.data ++ '"' :: ',' :: '"' ::
            (escapeChars "match_percentage".data ++ '"' :: ':' ::
              (natToChars 0 ++ ',' :: '"' ::
                (escapeChars "rank".data ++ '"' :: ':' ::
                  (natToChars (i + 1) ++ ',' :: '"' ::
                    (escapeChars "strengths".data ++ '"' :: ':' ::
                      ('[' :: '"' ::
                        (escapeChars "Unable to analyze strengths".data ++ '"' :: ']' :: ',' :: '"' ::
                          (escapeChars "gaps".data ++ '"' :: ':' ::
                            ('[' :: '"' ::
                              (escapeChars "Unable to analyze gaps".data
                                ++ '"' :: ']' :: rbrace :: rest))))))))))))) := by
  have hcast : intToChars ((i : Int) + 1) = natToChars (i + 1) := by
    rw [← intToChars_ofNat]
    norm_cast
  simp [fallbackEntry, serialize, serializeMembers, serializeElems, hcast,
        show intToChars 0 = natToChars 0 from intToChars_ofNat 0]

theorem pv_fallbackEntry (fuel i : Nat) (r : ResumeInput) (rest : List Char) :
    parseValue (fuel + 7) (serialize (fallbackEntry i r) ++ rest)
      = some (fallbackEntry i r, rest) := by
  rw [serialize_fallbackEntry]
  have hGapsClose : parseMembersTail (fuel + 2) (rbrace :: rest) = some ([], rest) :=
    pmt_close (fuel + 1) rest
  have hGapsVal := pv_arr_single_str fuel "Unable to analyze gaps" (rbrace :: rest)
  have hGaps := pmt_step (fuel + 2) "gaps" hGapsVal hGapsClose
  have hStrVal := pv_arr_single_str (fuel + 1) "Unable to analyze strengths"
    (',' :: '"' :: (escapeChars "gaps".data ++ '"' :: ':' ::
      ('[' :: '"' :: (escapeChars "Unable to analyze gaps".data ++ '"' :: ']' :: rbrace :: rest))))
  have hStr := pmt_step (fuel + 3) "strengths" hStrVal hGaps
  have hRankVal := parseValue_nat (fuel + 3) (i + 1)
    (',' :: '"' :: (escapeChars "strengths".data ++ '"' :: ':' ::
      ('[' :: '"' :: (escapeChars "Unable to analyze strengths".data ++ '"' :: ']' :: ',' :: '"' ::
        (escapeChars "gaps".data ++ '"' :: ':' ::
          ('[' :: '"' :: (escapeChars "Unable to analyze gaps".data ++ '"' :: ']' :: rbrace :: rest)))))))
    (fun c cs' h => by cases h; rfl)
  have hRank := pmt_step (fuel + 4) "rank" hRankVal hStr
  have hMpVal := parseValue_nat (fuel + 4) 0
    (',' :: '"' :: (escapeChars "rank".data ++ '"' :: ':' ::
      (natToChars (i + 1) ++ ',' :: '"' :: (escapeChars "strengths".data ++ '"' :: ':' ::
        ('[' :: '"' :: (escapeChars "Unable to analyze strengths".data ++ '"' :: ']' :: ',' :: '"' ::
          (escapeChars "gaps".data ++ '"' :: ':' ::
            ('[' :: '"' :: (escapeChars "Unable to analyze gaps".data ++ '"' :: ']' :: rbrace :: rest)))))))))
    (fun c cs' h => by cases h; rfl)
  have hMp := pmt_step (fuel + 5) "match_percentage" hMpVal hRank
  have hNameVal := parseValue_str (fuel + 5) r.name
    (',' :: '"' :: (escapeChars "match_percentage".data ++ '"' :: ':' ::
      (natToChars 0 ++ ',' :: '"' :: (escapeChars "rank".data ++ '"' :: ':' ::
        (natToChars (i + 1) ++ ',' :: '"' :: (escapeChars "strengths".data ++ '"' :: ':' ::
          ('[' :: '"' :: (escapeChars "Unable to analyze strengths".data ++ '"' :: ']' :: ',' :: '"' ::
            (escapeChars "gaps".data ++ '"' :: ':' ::
              ('[' :: '"' :: (escapeChars "Unable to analyze gaps".data ++ '"' :: ']' :: rbrace :: rest)))))))))))
  have hfinal := pv_obj (fuel + 6) "resume_name" hNameVal hMp
  exact hfinal

theorem serializeElems_cons_cons (e1 e2 : JSON) (es : List JSON) :
    serializeElems (e1 :: e2 :: es) = serialize e1 ++ ',' :: serializeElems (e2 :: es) := by
  conv_lhs => rw [serializeElems.eq_def]

theorem serializeElems_entries (rs : List ResumeInput) :
    ∀ i r rest, serializeElems (fallbackEntries i (r :: rs)) ++ ']' :: rest
      = serialize (fallbackEntry i r) ++ entriesTailChars rs (i + 1) rest := by
  induction rs with
  | nil =>
    intro i r rest
    rw [fallbackEntries, fallbackEntries, serializeElems, entriesTailChars]
  | cons r2 rs2 ih =>
    intro i r rest
    have h2 := ih (i + 1) r2 rest
    rw [fallbackEntries] at h2
    rw [fallbackEntries, fallbackEntries, serializeElems_cons_cons, entriesTailChars,
        List.append_assoc, List.cons_append, h2]

theorem serialize_entry_cons (i : Nat) (r : ResumeInput) :
    ∃ tail, serialize (fallbackEntry i r) = lbrace :: tail := by
  rw [fallbackEntry, serialize]
  exact ⟨_, rfl⟩

theorem pet_entries (rs : List ResumeInput) :
    ∀ i fuel rest, parseElemsTail (rs.length + fuel + 8) (entriesTailChars rs i rest)
      = some (fallbackEntries i rs, rest) := by
  induction rs with
  | nil =>
    intro i fuel rest
    rw [entriesTailChars, fallbackEntries, show ([] : List ResumeInput).length + fuel + 8
          = (fuel + 7) + 1 from by simp only [List.length_nil]; omega]
    exact pet_close (fuel + 7) rest
  | cons r rs2 ih =>
    intro i fuel rest
    rw [entriesTailChars, fallbackEntries, show (r :: rs2).length + fuel + 8
          = (rs2.length + fuel + 8) + 1 from by simp only [List.length_cons]; omega]
    have hv : parseValue (rs2.length + fuel + 8)
        (serialize (fallbackEntry i r) ++ entriesTailChars rs2 (i + 1) rest)
        = some (fallbackEntry i r, entriesTailChars rs2 (i + 1) rest) := by
      rw [show rs2.length + fuel + 8 = (rs2.length + fuel + 1) + 7 from by omega]
      exact pv_fallbackEntry (rs2.length + fuel + 1) i r (entriesTailChars rs2 (i + 1) rest)
    exact pet_step (rs2.length + fuel + 8) hv (ih (i + 1) fuel rest)

theorem pv_entries (rs : List ResumeInput) :
    ∀ i fuel rest,
      parseValue (rs.length + fuel + 9)
          ('[' :: (serializeElems (fallbackEntries i rs) ++ ']' :: rest))
        = some (JSON.arr (fallbackEntries i rs), rest) := by
  cases rs with
  | nil =>
    intro i fuel rest
    rw [fallbackEntries, show ([] : List ResumeInput).length + fuel + 9
          = (fuel + 8) + 1 from by simp only [List.length_nil]; omega]
    rw [show serializeElems [] = ([] : List Char) from rfl, List.nil_append]
    exact pv_arr_nil (fuel + 8) rest
  | cons r rs2 =>
    intro i fuel rest
    rw [serializeElems_entries rs2 i r rest]
    obtain ⟨tail, htail⟩ := serialize_entry_cons i r
    have hv : parseValue (rs2.length + fuel + 9)
        (serialize (fallbackEntry i r) ++ entriesTailChars rs2 (i + 1) rest)
        = some (fallbackEntry i r, entriesTailChars rs2 (i + 1) rest) := by
      rw [show rs2.length + fuel + 9 = (rs2.length + fuel + 2) + 7 from by omega]
      exact pv_fallbackEntry (rs2.length + fuel + 2) i r (entriesTailChars rs2 (i + 1) rest)
    have ht : parseElemsTail (rs2.length + fuel + 9) (entriesTailChars rs2 (i + 1) rest)
        = some (fallbackEntries (i + 1) rs2, rest) := by
      rw [show rs2.length + fuel + 9 = rs2.length + (fuel + 1) + 8 from by omega]
      exact pet_entries rs2 (i + 1) (fuel + 1) rest
    rw [htail] at hv
    rw [show (r :: rs2).length + fuel + 9 = (rs2.length + fuel + 9) + 1 from by
      simp only [List.length_cons]; omega]
    rw [htail, List.cons_append]
    have := pv_arr_cons (rs2.length + fuel + 9) (show isWs lbrace = false by decide)
      (show ¬ lbrace = ']' by decide) hv ht
    rw [fallbackEntries]
    exact this

theorem serialize_fallbackRankings_text (rs : List ResumeInput) :
    serialize (fallbackRankings rs)
      = lbrace :: '"' :: (escapeChars "rankings".data ++ '"' :: ':' ::
          ('[' :: (serializeElems (fallbackEntries 0 rs) ++ ']' :: rbrace :: []))) := by
  simp [fallbackRankings, serialize, serializeMembers]

theorem pv_fallbackRankings (rs : List ResumeInput) (fuel : Nat) :
    parseValue (rs.length + fuel + 12) (serialize (fallbackRankings rs))
      = some (fallbackRankings rs, []) := by
  rw [serialize_fallbackRankings_text]
  have hv : parseValue (rs.length + fuel + 11)
      ('[' :: (serializeElems (fallbackEntries 0 rs) ++ ']' :: rbrace :: []))
      = some (JSON.arr (fallbackEntries 0 rs), rbrace :: []) := by
    rw [show rs.length + fuel + 11 = rs.length + (fuel + 2) + 9 from by omega]
    exact pv_entries rs 0 (fuel + 2) (rbrace :: [])
  have ht : parseMembersTail (rs.length + fuel + 11) (rbrace :: []) = some ([], []) := by
    rw [show rs.length + fuel + 11 = (rs.length + fuel + 10) + 1 from by omega]
    exact pmt_close (rs.length + fuel + 10) []
  rw [show rs.length + fuel + 12 = (rs.length + fuel + 11) + 1 from by omega]
  have := pv_obj (rs.length + fuel + 11) "rankings" hv ht
  rw [fallbackRankings]
  exact this

theorem serializeElems_entries_length (rs : List ResumeInput) :
    ∀ i, rs.length ≤ (serializeElems (fallbackEntries i rs)).length := by
  induction rs with
  | nil => intro i; simp
  | cons r rs2 ih =>
    intro i
    obtain ⟨tail, htail⟩ := serialize_entry_cons i r
    cases rs2 with
    | nil =>
      rw [fallbackEntries, fallbackEntries, serializeElems, htail]
      simp
    | cons r2 rs3 =>
      rw [fallbackEntries, fallbackEntries, serializeElems_cons_cons, ← fallbackEntries]
      have := ih (i + 1)
      rw [htail]
      simp only [List.length_cons, List.length_append, List.cons_append] at this ⊢
      omega

theorem jsonParse_serialize_fallback (rs : List ResumeInput) :
    jsonParse (jsonSerialize (fallbackRankings rs)) = some (fallbackRankings rs) := by
  have hlen : rs.length + 12 ≤ (serialize (fallbackRankings rs)).length + 1 := by
    rw [serialize_fallbackRankings_text]
    have h1 := serializeElems_entries_length rs 0
    have h2 : (escapeChars "rankings".data).length = 8 := rfl
    simp only [List.length_cons, List.length_append, h2]
    omega
  obtain ⟨fuel, hf⟩ : ∃ fuel,
      (serialize (fallbackRankings rs)).length + 1 = rs.length + fuel + 12 :=
    ⟨(serialize (fallbackRankings rs)).length + 1 - rs.length - 12, by omega⟩
  show jsonParse ⟨serialize (fallbackRankings rs)⟩ = some (fallbackRankings rs)
  rw [jsonParse]
  simp only [show (String.mk (serialize (fallbackRankings rs))).data
      = serialize (fallbackRankings rs) from rfl]
  rw [hf, pv_fallbackRankings rs fuel]
  rfl

/-- C8 (confirmed): serializing the synthesized fallback result back to text
and running the parse-and-validate stage on that text (with the same resume
list) returns the very same result: the text parses directly, passes line
192's check, and is passed through unchanged. -/
theorem C8_idempotent_on_fallback (resumes : List ResumeInput) :
    normalizeResponse resumes (jsonSerialize (fallbackRankings resumes))
      = fallbackRankings resumes := by
  rw [normalizeResponse_parse_some (jsonParse_serialize_fallback resumes),
      if_pos (isValid_fallback resumes)]
